import Mathlib

/-!
Shallow embedding of `src/polyReorder.cpp` (the polyReorder Maya plugin's
core module).  The Maya mesh store is out of scope for the module (spec §1),
so meshes are modelled by the data the module reads from them
(point list, per-face counts, flattened connectivity, per-corner normals,
normal ids with lock flags, edges with smoothing flags, UV sets), and the
mutating calls issued against the output mesh are recorded as a trace of
`MeshCall` values whose statuses are supplied by an oracle
`MeshCall → MStatus`.  Maya `MIntArray`/`MPointArray`/`MVectorArray`
values are modelled as Lean lists; a bounds-checked write
(`MPointArray::set`, whose failure status the source discards) is a
`List.set`, which leaves the list unchanged when the index is out of
range.  Coordinates are opaque to the module (it only copies them), so
they are carried as integers.
-/

set_option autoImplicit false

namespace polyReorder

/-- Models Maya `MStatus`: the module only ever distinguishes success from
failure (`CHECK_MSTATUS_AND_RETURN_IT` / `RETURN_IF_ERROR`). -/
inductive MStatus where
  | kSuccess : MStatus
  | kFailure : MStatus
deriving DecidableEq, Repr, Inhabited

/-- A point position (Maya `MPoint`); the module never computes with the
coordinates, so they are opaque integers. -/
structure MPoint where
  x : Int
  y : Int
  z : Int
deriving DecidableEq, Repr, Inhabited

/-- A normal vector (Maya `MVector`); coordinates are opaque to the module. -/
structure MVector where
  x : Int
  y : Int
  z : Int
deriving DecidableEq, Repr, Inhabited

/-- One named UV set as extracted by `getUVs` (struct `UVSetData` of the
plugin): coordinate arrays plus per-corner assignment arrays. -/
structure UVSetData where
  name : String
  uArray : List Int
  vArray : List Int
  uvCounts : List Int
  uvIds : List Int
deriving DecidableEq, Repr, Inhabited

/-- A mutating call issued against the output mesh (the narrow mutation
interface of spec §6); `reorderMesh` and the `set*` components are modelled
as producing a trace of these calls. -/
inductive MeshCall where
  | createMesh (numVertices numPolys : Nat) (points : List MPoint)
      (polyCounts polyConnects : List Int)
  | createMeshInPlace (numVertices numPolys : Nat) (points : List MPoint)
      (polyCounts polyConnects : List Int)
  | createUVSet (name : String)
  | clearUVs (name : String)
  | setUVsCall (name : String) (uArray vArray : List Int)
  | assignUVs (name : String) (uvCounts uvIds : List Int)
  | setFaceVertexNormalsCall (normals : List MVector) (faceList vertexList : List Int)
  | unlockFaceVertexNormalsCall (faceList vertexList : List Int)
  | lockFaceVertexNormalsCall (faceList vertexList : List Int)
  | setSmoothing (v0 v1 : Int) (smooth : Bool)
deriving DecidableEq, Repr

/-- `MIntArray` read `arr[i]` at a possibly signed index: negative or
out-of-range indices (undefined behaviour in the original) read as `0`;
every theorem that depends on such a read carries an in-range hypothesis. -/
def idxInt (arr : List Int) (i : Int) : Int :=
  if 0 ≤ i then arr.getD i.toNat 0 else 0

/-- `MPointArray::set(v, idx)`: the write is bounds checked by Maya (and its
status is discarded by `getPoints`), so an out-of-range or negative index
leaves the array unchanged. -/
def setPt (arr : List MPoint) (idx : Int) (v : MPoint) : List MPoint :=
  if 0 ≤ idx then arr.set idx.toNat v else arr

/-- `polyReorder::getPoints` (lines 25-42): reads the target mesh's points,
sizes the output to `numVertices`, and writes `outPoints[pointOrder[i]] =
inPoints[i]`; the function returns `kSuccess` unconditionally (the statuses
of the store read and of each `set` are discarded). -/
def getPoints (targetPoints : List MPoint) (pointOrder : List Int) :
    MStatus × List MPoint :=
  let numVertices := targetPoints.length
  let outPoints := (List.range numVertices).foldl
    (fun acc i => setPt acc (pointOrder.getD i 0) (targetPoints.getD i default))
    (List.replicate numVertices default)
  (MStatus.kSuccess, outPoints)

/-- `polyReorder::getPolys` (lines 45-59): reads the mesh's per-face counts
and flattened connectivity; when `reorderPoints` is set, the loop rewrites
`polyConnects[i] = pointOrder[polyConnects[i]]` in place.  Returns
`kSuccess` unconditionally. -/
def getPolys (polyCounts polyConnects : List Int) (pointOrder : List Int)
    (reorderPoints : Bool) : MStatus × List Int × List Int :=
  let pc :=
    if reorderPoints then
      (List.range polyConnects.length).foldl
        (fun acc i => acc.set i (idxInt pointOrder (acc.getD i 0))) polyConnects
    else polyConnects
  (MStatus.kSuccess, polyCounts, pc)

/-- Proof-side helper: write the elements of `src` into `dst` at consecutive
positions `idx, idx+1, …` (each write is a bounds-checked `List.set`).  The
write loops of `getFaceVertexList` and `getFaceVertexNormals` are proved
equal to this single combinator. -/
def writeFrom {α : Type} (dst : List α) (idx : Nat) : List α → List α
  | [] => dst
  | v :: vs => writeFrom (dst.set idx v) (idx + 1) vs

/-- Inner loop of `polyReorder::getFaceVertexList` (lines 74-78): for one
face `face` with `c` remaining corners, write `faceList[idx] = face` and
`vertexList[idx] = polyConnects[idx]` and advance `idx`. -/
def fvFill (polyConnects : List Int) (face : Nat) :
    Nat → Nat → List Int × List Int → (List Int × List Int) × Nat
  | 0, idx, st => (st, idx)
  | c + 1, idx, st =>
      fvFill polyConnects face c (idx + 1)
        (st.1.set idx (Int.ofNat face), st.2.set idx (polyConnects.getD idx 0))

/-- Outer loop of `polyReorder::getFaceVertexList` (lines 72-79): iterate
over the per-face counts, keeping the running corner index `idx`.  A
negative count runs the inner loop zero times (`for (int j = 0; j < c; ...)`),
hence `Int.toNat`. -/
def fvOuter (polyConnects : List Int) :
    List Int → Nat → Nat → List Int × List Int → List Int × List Int
  | [], _face, _idx, st => st
  | c :: rest, face, idx, st =>
      let r := fvFill polyConnects face c.toNat idx st
      fvOuter polyConnects rest (face + 1) r.2 r.1

/-- `polyReorder::getFaceVertexList` (lines 62-80): sizes both output
arrays to `polyConnects.length` (`setLength` leaves unspecified contents,
modelled as zeros) and fills them with the face-corner enumeration. -/
def getFaceVertexList (polyCounts polyConnects : List Int) :
    List Int × List Int :=
  let numNormals := polyConnects.length
  fvOuter polyConnects polyCounts 0 0
    (List.replicate numNormals 0, List.replicate numNormals 0)

/-- Inner loop of `polyReorder::getFaceVertexNormals` (lines 93-96): write
the corners' normals of one face at consecutive indices `i` of
`vertexNormals`, which is never resized.  The `Bool` component instruments
the embedding: it records whether every write so far was in bounds (an
out-of-range `vertexNormals[i]` is undefined behaviour in the original;
the total embedding drops the write and clears the flag). -/
def fvnFace : List MVector → List MVector × Bool × Nat → List MVector × Bool × Nat
  | [], st => st
  | v :: vs, st =>
      fvnFace vs (st.1.set st.2.2 v, st.2.1 && decide (st.2.2 < st.1.length), st.2.2 + 1)

/-- Outer loop of `polyReorder::getFaceVertexNormals` (lines 89-97):
iterate the target mesh's faces in order. -/
def fvnAll : List (List MVector) → List MVector × Bool × Nat → List MVector × Bool × Nat
  | [], st => st
  | f :: fs, st => fvnAll fs (fvnFace f st)

/-- `polyReorder::getFaceVertexNormals` (lines 83-100): fills the
caller-supplied `vertexNormals` with the target's per-face-corner normals
at consecutive indices and returns `kSuccess` unconditionally (the status
of each `getNormal` is discarded).  The mesh is represented by its
per-face lists of corner normals.  The extra `Bool` records in-boundedness
of every write (see `fvnFace`). -/
def getFaceVertexNormals (faceNormals : List (List MVector))
    (vertexNormals : List MVector) : MStatus × List MVector × Bool :=
  let st := fvnAll faceNormals (vertexNormals, true, 0)
  (MStatus.kSuccess, st.1, st.2.1)

/-- `polyReorder::setFaceVertexNormals` (lines 103-121): recompute the
face-vertex enumeration from the given topology, then issue the bulk
normal assignment followed by the bulk unlock, propagating the first
failing status. -/
def setFaceVertexNormals (ms : MeshCall → MStatus)
    (polyCounts polyConnects : List Int) (vertexNormals : List MVector) :
    MStatus × List MeshCall :=
  let fv := getFaceVertexList polyCounts polyConnects
  let c1 := MeshCall.setFaceVertexNormalsCall vertexNormals fv.1 fv.2
  let s1 := ms c1
  if s1 ≠ MStatus.kSuccess then (s1, [c1])
  else
    let c2 := MeshCall.unlockFaceVertexNormalsCall fv.1 fv.2
    let s2 := ms c2
    if s2 ≠ MStatus.kSuccess then (s2, [c1, c2]) else (MStatus.kSuccess, [c1, c2])

/-- `polyReorder::getFaceVertexLocks` (lines 123-145): read the mesh's
normal ids (propagating a failing `getNormalIds` status; the output array
is then left untouched, i.e. empty inside `reorderMesh`) and record, per
normal id, whether that normal is locked (`bool` stored into an
`MIntArray`, so `1`/`0`). -/
def getFaceVertexLocks (normalIds : List Int) (getNormalIdsStatus : MStatus)
    (isNormalLocked : Int → Bool) : MStatus × List Int :=
  if getNormalIdsStatus ≠ MStatus.kSuccess then (getNormalIdsStatus, [])
  else
    (MStatus.kSuccess, normalIds.map (fun nid => if isNormalLocked nid then 1 else 0))

/-- `polyReorder::setFaceVertexLocks` (lines 147-206): re-read the output
mesh's topology (status checked), recompute the face-vertex enumeration,
partition the corners by `lockedList[i] == 1` (appending each corner to
the locked or unlocked pair of arrays, which the source preallocates and
truncates to the final counters), then issue the bulk unlock for the
unlocked subset and the bulk lock for the locked subset, each skipped when
its subset is empty, each propagating a failing status. -/
def setFaceVertexLocks (ms : MeshCall → MStatus)
    (polyCounts polyConnects : List Int) (getVerticesStatus : MStatus)
    (lockedList : List Int) : MStatus × List MeshCall :=
  if getVerticesStatus ≠ MStatus.kSuccess then (getVerticesStatus, [])
  else
    let fv := getFaceVertexList polyCounts polyConnects
    let numNormals := polyConnects.length
    let part := (List.range numNormals).foldl
      (fun (p : List (Int × Int) × List (Int × Int)) i =>
        if lockedList.getD i 0 = 1 then
          (p.1 ++ [(fv.1.getD i 0, fv.2.getD i 0)], p.2)
        else
          (p.1, p.2 ++ [(fv.1.getD i 0, fv.2.getD i 0)]))
      ([], [])
    let locked := part.1
    let unlocked := part.2
    if unlocked ≠ [] then
      let cU := MeshCall.unlockFaceVertexNormalsCall
        (unlocked.map Prod.fst) (unlocked.map Prod.snd)
      let sU := ms cU
      if sU ≠ MStatus.kSuccess then (sU, [cU])
      else if locked ≠ [] then
        let cL := MeshCall.lockFaceVertexNormalsCall
          (locked.map Prod.fst) (locked.map Prod.snd)
        let sL := ms cL
        if sL ≠ MStatus.kSuccess then (sL, [cU, cL]) else (MStatus.kSuccess, [cU, cL])
      else (MStatus.kSuccess, [cU])
    else if locked ≠ [] then
      let cL := MeshCall.lockFaceVertexNormalsCall
        (locked.map Prod.fst) (locked.map Prod.snd)
      let sL := ms cL
      if sL ≠ MStatus.kSuccess then (sL, [cL]) else (MStatus.kSuccess, [cL])
    else (MStatus.kSuccess, [])

/-- Modelled from the spec: `polyReorder::twoIntKey` is declared in
`polyReorder.h`, which is not among the reviewed sources; spec §4.1 records
that it packs the two 32-bit vertex ids as `(v0 << 32) | v1` without
canonicalizing their order.  The 64-bit key is carried as a `Nat`, each id
reduced to its low 32 bits. -/
def twoIntKey (v0 v1 : Int) : Nat :=
  (v0.toNat % 2 ^ 32) * 2 ^ 32 + v1.toNat % 2 ^ 32

/-- `std::unordered_map::emplace`: insert only when the key is absent. -/
def mapEmplace (m : List (Nat × Bool)) (k : Nat) (v : Bool) : List (Nat × Bool) :=
  if (m.lookup k).isSome then m else m ++ [(k, v)]

/-- `std::unordered_map<uint64_t, bool>::operator[]` as read by
`setEdgeSmoothing`: an absent key yields the value-initialized `bool`,
i.e. `false`. -/
def mapGet (m : List (Nat × Bool)) (k : Nat) : Bool :=
  (m.lookup k).getD false

/-- `polyReorder::getEdgeSmoothing` (lines 209-228): walk the target
mesh's edges (each edge is its two endpoint ids and its smooth flag),
remap both endpoints through `pointOrder`, and `emplace` the smooth flag
under the packed key.  Returns `kSuccess` unconditionally. -/
def getEdgeSmoothing (edges : List (Int × Int × Bool)) (pointOrder : List Int) :
    MStatus × List (Nat × Bool) :=
  (MStatus.kSuccess,
    edges.foldl
      (fun m e =>
        mapEmplace m (twoIntKey (idxInt pointOrder e.1) (idxInt pointOrder e.2.1)) e.2.2)
      [])

/-- `polyReorder::setEdgeSmoothing` (lines 231-250): walk the output
mesh's edges, look each key up with `operator[]` (absent keys read
`false`), and set the edge's smoothing; the status of each `setSmoothing`
is discarded and the function returns `kSuccess` unconditionally. -/
def setEdgeSmoothing (outEdges : List (Int × Int))
    (edgeSmoothing : List (Nat × Bool)) : MStatus × List MeshCall :=
  (MStatus.kSuccess,
    outEdges.map (fun e =>
      MeshCall.setSmoothing e.1 e.2 (mapGet edgeSmoothing (twoIntKey e.1 e.2))))

/-- A `UVSetData` holding only its name (the state of an entry of the
`uvSets` vector before `getUVs` fills its arrays). -/
def emptyUV (n : String) : UVSetData :=
  { name := n, uArray := [], vArray := [], uvCounts := [], uvIds := [] }

/-- Loop of `polyReorder::getUVs` (lines 270-277): for each named set, read
its coordinates then its assignments, propagating the first failure (the
vector already holds one name-initialized entry per set; entries not yet
reached keep only their name). -/
def getUVsAux (uvOf : String → UVSetData) (stUV stAssign : String → MStatus) :
    List String → MStatus × List UVSetData
  | [] => (MStatus.kSuccess, [])
  | n :: rest =>
    if stUV n ≠ MStatus.kSuccess then
      (stUV n, emptyUV n :: rest.map emptyUV)
    else if stAssign n ≠ MStatus.kSuccess then
      (stAssign n,
        { emptyUV n with uArray := (uvOf n).uArray, vArray := (uvOf n).vArray }
          :: rest.map emptyUV)
    else
      let r := getUVsAux uvOf stUV stAssign rest
      (r.1, { uvOf n with name := n } :: r.2)

/-- `polyReorder::getUVs` (lines 253-280): read the UV set names (status
discarded), then per set the coordinates and assignments.  The target
mesh's UV data is represented by the set-name list together with a map
from name to that set's data and the per-name statuses of the two reads. -/
def getUVs (uvSetNames : List String) (uvOf : String → UVSetData)
    (stUV stAssign : String → MStatus) : MStatus × List UVSetData :=
  getUVsAux uvOf stUV stAssign uvSetNames

/-- `polyReorder::setUVs` (lines 283-308): per extracted set, in order:
create the set when its name is not `"map1"` (status only logged by
`CHECK_MSTATUS`, never fatal), clear the set's UVs, write the coordinate
arrays, write the assignment arrays — the last three each propagating a
failing status immediately. -/
def setUVs (ms : MeshCall → MStatus) : List UVSetData → MStatus × List MeshCall
  | [] => (MStatus.kSuccess, [])
  | d :: rest =>
    let tr0 : List MeshCall :=
      if d.name ≠ "map1" then [MeshCall.createUVSet d.name] else []
    let s1 := ms (MeshCall.clearUVs d.name)
    if s1 ≠ MStatus.kSuccess then (s1, tr0 ++ [MeshCall.clearUVs d.name])
    else
      let s2 := ms (MeshCall.setUVsCall d.name d.uArray d.vArray)
      if s2 ≠ MStatus.kSuccess then
        (s2, tr0 ++ [MeshCall.clearUVs d.name,
                     MeshCall.setUVsCall d.name d.uArray d.vArray])
      else
        let s3 := ms (MeshCall.assignUVs d.name d.uvCounts d.uvIds)
        if s3 ≠ MStatus.kSuccess then
          (s3, tr0 ++ [MeshCall.clearUVs d.name,
                       MeshCall.setUVsCall d.name d.uArray d.vArray,
                       MeshCall.assignUVs d.name d.uvCounts d.uvIds])
        else
          let r := setUVs ms rest
          (r.1, tr0 ++ [MeshCall.clearUVs d.name,
                        MeshCall.setUVsCall d.name d.uArray d.vArray,
                        MeshCall.assignUVs d.name d.uvCounts d.uvIds] ++ r.2)

/-- The data the module reads from a mesh through the narrow store
interface of spec §6, together with the statuses of the store reads whose
results the module inspects. -/
structure MeshStore where
  points : List MPoint
  polyCounts : List Int
  polyConnects : List Int
  faceNormals : List (List MVector)
  normalIds : List Int
  getNormalIdsStatus : MStatus
  isNormalLocked : Int → Bool
  edges : List (Int × Int × Bool)
  uvSetNames : List String
  uvOf : String → UVSetData
  getUVsStatus : String → MStatus
  getAssignedUVsStatus : String → MStatus

/-- The mesh-construction call `reorderMesh` issues (lines 344-377):
`MFnMesh::create` on the new-mesh-data path, `createInPlace` otherwise,
fed with the source's vertex/face counts and the remapped points and
topology. -/
def constructionCall (src tgt : MeshStore) (pointOrder : List Int)
    (isMeshData : Bool) : MeshCall :=
  let numVertices := src.points.length
  let numPolys := src.polyCounts.length
  let points := (getPoints tgt.points pointOrder).2
  let polys := (getPolys src.polyCounts src.polyConnects pointOrder isMeshData).2
  if isMeshData then
    MeshCall.createMesh numVertices numPolys points polys.1 polys.2
  else
    MeshCall.createMeshInPlace numVertices numPolys points polys.1 polys.2

/-- `polyReorder::reorderMesh` (lines 311-392).  The six extraction calls
are issued with their returned statuses discarded (lines 334-342); the
construction status is checked on the new-mesh-data path only (on the
in-place path `CHECK_MSTATUS_AND_RETURN_IT` tests a stale, still-successful
`status`); the four `set*` steps propagate their failures via
`RETURN_IF_ERROR`.  `outEdges` is the edge list of the constructed output
mesh and `outGetVerticesStatus` the status of `setFaceVertexLocks`'
topology re-read of the output mesh (both part of the store model). -/
def reorderMesh (src tgt : MeshStore) (pointOrder : List Int)
    (ms : MeshCall → MStatus) (outEdges : List (Int × Int))
    (outGetVerticesStatus : MStatus) (isMeshData : Bool) :
    MStatus × List MeshCall :=
  let polys := (getPolys src.polyCounts src.polyConnects pointOrder isMeshData).2
  let polyCounts := polys.1
  let polyConnects := polys.2
  let vertexNormals :=
    (getFaceVertexNormals tgt.faceNormals
      (List.replicate polyConnects.length default)).2.1
  let lockedList :=
    (getFaceVertexLocks tgt.normalIds tgt.getNormalIdsStatus tgt.isNormalLocked).2
  let edgeSmoothing := (getEdgeSmoothing tgt.edges pointOrder).2
  let uvSets := (getUVs tgt.uvSetNames tgt.uvOf tgt.getUVsStatus tgt.getAssignedUVsStatus).2
  let createCall := constructionCall src tgt pointOrder isMeshData
  let sCreate := ms createCall
  if isMeshData = true ∧ sCreate ≠ MStatus.kSuccess then (sCreate, [createCall])
  else
    let rUV := setUVs ms uvSets
    if rUV.1 ≠ MStatus.kSuccess then (rUV.1, createCall :: rUV.2)
    else
      let rN := setFaceVertexNormals ms polyCounts polyConnects vertexNormals
      if rN.1 ≠ MStatus.kSuccess then (rN.1, createCall :: (rUV.2 ++ rN.2))
      else
        let rL := setFaceVertexLocks ms polyCounts polyConnects
          outGetVerticesStatus lockedList
        if rL.1 ≠ MStatus.kSuccess then
          (rL.1, createCall :: (rUV.2 ++ rN.2 ++ rL.2))
        else
          let rE := setEdgeSmoothing outEdges edgeSmoothing
          if rE.1 ≠ MStatus.kSuccess then
            (rE.1, createCall :: (rUV.2 ++ rN.2 ++ rL.2 ++ rE.2))
          else (MStatus.kSuccess, createCall :: (rUV.2 ++ rN.2 ++ rL.2 ++ rE.2))

/-- Property-side helper (spec §3, face-vertex enumeration): the face-id
sequence in which face `f` contributes `counts[f]` consecutive copies of
its id, faces in order, starting at face id `f0`. -/
def faceIdSeq (f0 : Nat) : List Int → List Int
  | [] => []
  | c :: rest => List.replicate c.toNat (Int.ofNat f0) ++ faceIdSeq (f0 + 1) rest

/-- Total face-corner count of a per-face count array (a negative count
contributes no corners, as in the source's inner loop). -/
def cornerSum (polyCounts : List Int) : Nat :=
  (polyCounts.map Int.toNat).sum

/-- Property-side helper (spec §4.5): the corners (enumerated by index
`i < n` as `(faceList[i], vertexList[i])`) whose lock flag is `1`, in
enumeration order. -/
def lockedSubset (lockedList fl vl : List Int) (n : Nat) : List (Int × Int) :=
  ((List.range n).filter (fun i => decide (lockedList.getD i 0 = 1))).map
    (fun i => (fl.getD i 0, vl.getD i 0))

/-- Property-side helper (spec §4.5): the corners whose lock flag is not
`1`, in enumeration order. -/
def unlockedSubset (lockedList fl vl : List Int) (n : Nat) : List (Int × Int) :=
  ((List.range n).filter (fun i => ! decide (lockedList.getD i 0 = 1))).map
    (fun i => (fl.getD i 0, vl.getD i 0))

/-- Property-side helper (spec §4.7): the calls `setUVs` issues for one UV
set when none of its fallible calls fail: create (only for a non-default
name), clear, coordinate write, assignment write, in that order. -/
def uvCallBlock (d : UVSetData) : List MeshCall :=
  (if d.name ≠ "map1" then [MeshCall.createUVSet d.name] else []) ++
  [MeshCall.clearUVs d.name,
   MeshCall.setUVsCall d.name d.uArray d.vArray,
   MeshCall.assignUVs d.name d.uvCounts d.uvIds]

/-- A minimal concrete store (one vertex, no faces, no edges, no UV sets)
whose `getNormalIds` read fails — `getFaceVertexLocks` reports failure on
it. -/
def storeLockFail : MeshStore where
  points := [⟨0, 0, 0⟩]
  polyCounts := []
  polyConnects := []
  faceNormals := []
  normalIds := []
  getNormalIdsStatus := MStatus.kFailure
  isNormalLocked := fun _ => false
  edges := []
  uvSetNames := []
  uvOf := emptyUV
  getUVsStatus := fun _ => MStatus.kSuccess
  getAssignedUVsStatus := fun _ => MStatus.kSuccess

/-- A minimal concrete store with two vertices and every store read
succeeding. -/
def storeTwoPoints : MeshStore where
  points := [⟨0, 0, 0⟩, ⟨1, 0, 0⟩]
  polyCounts := []
  polyConnects := []
  faceNormals := []
  normalIds := []
  getNormalIdsStatus := MStatus.kSuccess
  isNormalLocked := fun _ => false
  edges := []
  uvSetNames := []
  uvOf := emptyUV
  getUVsStatus := fun _ => MStatus.kSuccess
  getAssignedUVsStatus := fun _ => MStatus.kSuccess

/-- `storeTwoPoints` with one UV set, the default `"map1"`. -/
def storeUV : MeshStore where
  points := [⟨0, 0, 0⟩, ⟨1, 0, 0⟩]
  polyCounts := []
  polyConnects := []
  faceNormals := []
  normalIds := []
  getNormalIdsStatus := MStatus.kSuccess
  isNormalLocked := fun _ => false
  edges := []
  uvSetNames := ["map1"]
  uvOf := fun n => { name := n, uArray := [1], vArray := [2], uvCounts := [1], uvIds := [0] }
  getUVsStatus := fun _ => MStatus.kSuccess
  getAssignedUVsStatus := fun _ => MStatus.kSuccess

/-! ### Helper lemmas -/

theorem writeFrom_length {α : Type} (src : List α) :
    ∀ (dst : List α) (idx : Nat), (writeFrom dst idx src).length = dst.length := by
  induction src with
  | nil => intro dst idx; rfl
  | cons v vs ih =>
      intro dst idx
      simp [writeFrom, ih, List.length_set]

theorem writeFrom_append {α : Type} (xs : List α) :
    ∀ (ys : List α) (dst : List α) (idx : Nat),
      writeFrom dst idx (xs ++ ys) = writeFrom (writeFrom dst idx xs) (idx + xs.length) ys := by
  induction xs with
  | nil => intro ys dst idx; simp [writeFrom]
  | cons v vs ih =>
      intro ys dst idx
      simp only [List.cons_append, writeFrom, List.length_cons, List.append_eq]
      rw [ih]
      congr 1
      omega

theorem writeFrom_spec {α : Type} (src : List α) :
    ∀ (dst : List α) (idx : Nat), idx + src.length ≤ dst.length →
      writeFrom dst idx src = dst.take idx ++ src ++ dst.drop (idx + src.length) := by
  induction src with
  | nil =>
      intro dst idx _
      simp [writeFrom]
  | cons v vs ih =>
      intro dst idx h
      simp only [List.length_cons] at h
      have hidx : idx < dst.length := by omega
      rw [writeFrom, ih (dst.set idx v) (idx + 1) (by simp [List.length_set]; omega)]
      have hset : dst.set idx v = dst.take idx ++ v :: dst.drop (idx + 1) := by
        rw [List.set_eq_take_append_cons_drop]; simp [hidx]
      rw [hset]
      have hlen : (dst.take idx).length = idx := by simp; omega
      rw [List.take_append_eq_append_take, List.drop_append_eq_append_drop, hlen]
      rw [List.take_take, min_eq_right (by omega : idx ≤ idx + 1)]
      have e1 : idx + 1 - idx = 1 := by omega
      have e2 : List.drop (idx + 1 + vs.length) (List.take idx dst) = [] :=
        List.drop_eq_nil_of_le (by simp [List.length_take]; omega)
      have e3 : idx + 1 + vs.length - idx = vs.length + 1 := by omega
      rw [e1, e2, e3]
      simp only [List.take_succ_cons, List.take_zero, List.drop_succ_cons, List.drop_drop,
        List.nil_append, List.length_cons]
      have e4 : idx + 1 + vs.length = idx + (vs.length + 1) := by omega
      rw [e4]
      simp

/-- Core characterization of the `getPoints` write loop: under the
bijection precondition, after the first `m` writes every already-written
slot `pointOrder[i]` holds `targetPoints[i]`, and the length never
changes. -/
theorem getPoints_fold (targetPoints : List MPoint) (pointOrder : List Int)
    (hrange : ∀ i, i < targetPoints.length →
      0 ≤ pointOrder.getD i 0 ∧ (pointOrder.getD i 0).toNat < targetPoints.length)
    (hinj : ∀ i, i < targetPoints.length → ∀ j, j < targetPoints.length →
      pointOrder.getD i 0 = pointOrder.getD j 0 → i = j) :
    ∀ m, m ≤ targetPoints.length →
      (((List.range m).foldl
          (fun acc i => setPt acc (pointOrder.getD i 0) (targetPoints.getD i default))
          (List.replicate targetPoints.length default)).length = targetPoints.length ∧
       ∀ i, i < m →
        ((List.range m).foldl
          (fun acc i => setPt acc (pointOrder.getD i 0) (targetPoints.getD i default))
          (List.replicate targetPoints.length default)).getD
            (pointOrder.getD i 0).toNat default = targetPoints.getD i default) := by
  intro m
  induction m with
  | zero =>
      intro _
      refine ⟨by simp, ?_⟩
      intro i hi
      omega
  | succ m ih =>
      intro hm
      obtain ⟨hlen, hval⟩ := ih (by omega)
      rw [List.range_succ, List.foldl_append, List.foldl_cons, List.foldl_nil]
      set A := (List.range m).foldl
          (fun acc i => setPt acc (pointOrder.getD i 0) (targetPoints.getD i default))
          (List.replicate targetPoints.length default) with hA
      obtain ⟨hm0, hmlt⟩ := hrange m (by omega)
      have hstep : setPt A (pointOrder.getD m 0) (targetPoints.getD m default)
          = A.set (pointOrder.getD m 0).toNat (targetPoints.getD m default) := by
        unfold setPt
        rw [if_pos hm0]
      rw [hstep]
      refine ⟨by simp [List.length_set, hlen], ?_⟩
      intro i hi
      rcases Nat.lt_or_ge i m with hlt | hge
      · -- earlier write, untouched by the new one
        obtain ⟨hi0, hilt⟩ := hrange i (by omega)
        have hne : (pointOrder.getD m 0).toNat ≠ (pointOrder.getD i 0).toNat := by
          intro hEq
          have : pointOrder.getD m 0 = pointOrder.getD i 0 := by
            have h1 := Int.toNat_of_nonneg hm0
            have h2 := Int.toNat_of_nonneg hi0
            omega
          exact absurd (hinj m (by omega) i (by omega) this) (by omega)
        have hiA : (pointOrder.getD i 0).toNat < A.length := by rw [hlen]; exact hilt
        have hiA' : (pointOrder.getD i 0).toNat
            < (A.set (pointOrder.getD m 0).toNat (targetPoints.getD m default)).length := by
          simpa [List.length_set] using hiA
        rw [List.getD_eq_getElem _ _ hiA', List.getElem_set_ne hne,
          ← List.getD_eq_getElem A default hiA]
        exact hval i hlt
      · -- the new write itself
        obtain rfl : i = m := by omega
        have hiA' : (pointOrder.getD i 0).toNat
            < (A.set (pointOrder.getD i 0).toNat (targetPoints.getD i default)).length := by
          simp only [List.length_set, hlen]
          exact hmlt
        rw [List.getD_eq_getElem _ _ hiA', List.getElem_set_self]

/-- `getPoints` under the bijection precondition: the output keeps the
input length and slot `pointOrder[i]` holds `targetPoints[i]`. -/
theorem getPoints_spec (targetPoints : List MPoint) (pointOrder : List Int)
    (hrange : ∀ i, i < targetPoints.length →
      0 ≤ pointOrder.getD i 0 ∧ (pointOrder.getD i 0).toNat < targetPoints.length)
    (hinj : ∀ i, i < targetPoints.length → ∀ j, j < targetPoints.length →
      pointOrder.getD i 0 = pointOrder.getD j 0 → i = j) :
    ((getPoints targetPoints pointOrder).2).length = targetPoints.length ∧
    ∀ i, i < targetPoints.length →
      ((getPoints targetPoints pointOrder).2).getD (pointOrder.getD i 0).toNat default
        = targetPoints.getD i default := by
  have h := getPoints_fold targetPoints pointOrder hrange hinj targetPoints.length le_rfl
  simpa [getPoints] using h

/-! ### C1 -/

/-- C1 (counterexample): with the tetrahedron point order `[2,0,3,1]` the
contract `outPoints[pointOrder[i]] = targetPoints[i]` puts old point 3 at
new index 1 — the claim's "old point 2's [position] at new index 1" is
false on `getPoints`. -/
theorem getPoints_tetra_counterexample :
    ((getPoints ([⟨0,0,0⟩, ⟨1,0,0⟩, ⟨2,0,0⟩, ⟨3,0,0⟩] : List MPoint) [2,0,3,1]).2).getD 1 default
      = ({ x := 3, y := 0, z := 0 } : MPoint) ∧
    ¬ ((getPoints ([⟨0,0,0⟩, ⟨1,0,0⟩, ⟨2,0,0⟩, ⟨3,0,0⟩] : List MPoint) [2,0,3,1]).2).getD 1 default
      = ([⟨0,0,0⟩, ⟨1,0,0⟩, ⟨2,0,0⟩, ⟨3,0,0⟩] : List MPoint).getD 2 default := by
  decide

/-- C1 (amended): for every point array and every `pointOrder` that is a
bijection over `[0, len)`, `getPoints` yields an output of the same length
with `outPoints[pointOrder[i]] = targetPoints[i]` for every `i`; in
particular, with the tetrahedron point order `[2,0,3,1]`, old point 1's
position lands at new index 0 and old point 2's at new index 3. -/
theorem getPoints_remap_contract (targetPoints : List MPoint) (pointOrder : List Int)
    (hlen : pointOrder.length = targetPoints.length)
    (hrange : ∀ i, i < targetPoints.length →
      0 ≤ pointOrder.getD i 0 ∧ (pointOrder.getD i 0).toNat < targetPoints.length)
    (hinj : ∀ i, i < targetPoints.length → ∀ j, j < targetPoints.length →
      pointOrder.getD i 0 = pointOrder.getD j 0 → i = j) :
    ((getPoints targetPoints pointOrder).2).length = targetPoints.length ∧
    (∀ i, i < targetPoints.length →
      ((getPoints targetPoints pointOrder).2).getD (pointOrder.getD i 0).toNat default
        = targetPoints.getD i default) ∧
    (pointOrder = [2, 0, 3, 1] →
      ((getPoints targetPoints pointOrder).2).getD 0 default = targetPoints.getD 1 default ∧
      ((getPoints targetPoints pointOrder).2).getD 3 default = targetPoints.getD 2 default) := by
  obtain ⟨h1, h2⟩ := getPoints_spec targetPoints pointOrder hrange hinj
  refine ⟨h1, h2, ?_⟩
  rintro rfl
  have hn : targetPoints.length = 4 := by simpa using hlen.symm
  constructor
  · have h := h2 1 (by omega)
    have e : ((([2, 0, 3, 1] : List Int)).getD 1 0).toNat = 0 := by decide
    rw [e] at h
    exact h
  · have h := h2 2 (by omega)
    have e : ((([2, 0, 3, 1] : List Int)).getD 2 0).toNat = 3 := by decide
    rw [e] at h
    exact h

/-- C1 (witness): the amended contract instantiated on a concrete
tetrahedron point list with point order `[2,0,3,1]`. -/
theorem getPoints_remap_contract_witness :
    ((getPoints ([⟨0,0,0⟩, ⟨1,0,0⟩, ⟨2,0,0⟩, ⟨3,0,0⟩] : List MPoint) [2,0,3,1]).2).length
      = ([⟨0,0,0⟩, ⟨1,0,0⟩, ⟨2,0,0⟩, ⟨3,0,0⟩] : List MPoint).length ∧
    (∀ i, i < ([⟨0,0,0⟩, ⟨1,0,0⟩, ⟨2,0,0⟩, ⟨3,0,0⟩] : List MPoint).length →
      ((getPoints ([⟨0,0,0⟩, ⟨1,0,0⟩, ⟨2,0,0⟩, ⟨3,0,0⟩] : List MPoint) [2,0,3,1]).2).getD
          (([2, 0, 3, 1] : List Int).getD i 0).toNat default
        = ([⟨0,0,0⟩, ⟨1,0,0⟩, ⟨2,0,0⟩, ⟨3,0,0⟩] : List MPoint).getD i default) ∧
    (([2, 0, 3, 1] : List Int) = [2, 0, 3, 1] →
      ((getPoints ([⟨0,0,0⟩, ⟨1,0,0⟩, ⟨2,0,0⟩, ⟨3,0,0⟩] : List MPoint) [2,0,3,1]).2).getD 0 default
        = ([⟨0,0,0⟩, ⟨1,0,0⟩, ⟨2,0,0⟩, ⟨3,0,0⟩] : List MPoint).getD 1 default ∧
      ((getPoints ([⟨0,0,0⟩, ⟨1,0,0⟩, ⟨2,0,0⟩, ⟨3,0,0⟩] : List MPoint) [2,0,3,1]).2).getD 3 default
        = ([⟨0,0,0⟩, ⟨1,0,0⟩, ⟨2,0,0⟩, ⟨3,0,0⟩] : List MPoint).getD 2 default) :=
  getPoints_remap_contract ([⟨0,0,0⟩, ⟨1,0,0⟩, ⟨2,0,0⟩, ⟨3,0,0⟩] : List MPoint) [2,0,3,1]
    (by decide) (by decide) (by decide)

/-! ### C7 -/

/-- C7: for every permutation `pointOrder` of `[0, N)` together with its
inverse permutation `inv` (`inv[pointOrder[i]] = i`), remapping the point
array with `pointOrder` via `getPoints` and remapping the result with
`inv` reproduces the original point sequence exactly. -/
theorem getPoints_roundtrip (targetPoints : List MPoint) (pointOrder inv : List Int)
    (hrange : ∀ i, i < targetPoints.length →
      0 ≤ pointOrder.getD i 0 ∧ (pointOrder.getD i 0).toNat < targetPoints.length)
    (hinj : ∀ i, i < targetPoints.length → ∀ j, j < targetPoints.length →
      pointOrder.getD i 0 = pointOrder.getD j 0 → i = j)
    (hrangeInv : ∀ i, i < targetPoints.length →
      0 ≤ inv.getD i 0 ∧ (inv.getD i 0).toNat < targetPoints.length)
    (hinjInv : ∀ i, i < targetPoints.length → ∀ j, j < targetPoints.length →
      inv.getD i 0 = inv.getD j 0 → i = j)
    (hcomp : ∀ i, i < targetPoints.length →
      inv.getD (pointOrder.getD i 0).toNat 0 = Int.ofNat i) :
    (getPoints (getPoints targetPoints pointOrder).2 inv).2 = targetPoints := by
  obtain ⟨hmidLen, hmidVal⟩ := getPoints_spec targetPoints pointOrder hrange hinj
  set mid := (getPoints targetPoints pointOrder).2 with hmid
  obtain ⟨hrLen, hrVal⟩ :=
    getPoints_spec mid inv (by rw [hmidLen]; exact hrangeInv) (by rw [hmidLen]; exact hinjInv)
  apply List.ext_getElem (by rw [hrLen, hmidLen])
  intro k h1 h2
  have hk : k < targetPoints.length := h2
  obtain ⟨hk0, hklt⟩ := hrange k hk
  have hj := hrVal (pointOrder.getD k 0).toNat (by rw [hmidLen]; exact hklt)
  have he : (inv.getD (pointOrder.getD k 0).toNat 0).toNat = k := by
    rw [hcomp k hk]
    rfl
  rw [he] at hj
  have hv := hmidVal k hk
  have hgoal : (getPoints mid inv).2.getD k default = targetPoints.getD k default := by
    rw [hj]
    exact hv
  rw [List.getD_eq_getElem _ _ (by omega : k < (getPoints mid inv).2.length),
    List.getD_eq_getElem _ _ (by omega : k < targetPoints.length)] at hgoal
  exact hgoal

/-- C7 (witness): the round trip on a concrete tetrahedron point list with
the permutation `[2,0,3,1]` and its inverse `[1,3,0,2]`. -/
theorem getPoints_roundtrip_witness :
    (getPoints (getPoints ([⟨0,0,0⟩, ⟨1,0,0⟩, ⟨2,0,0⟩, ⟨3,0,0⟩] : List MPoint) [2,0,3,1]).2
        [1,3,0,2]).2
      = ([⟨0,0,0⟩, ⟨1,0,0⟩, ⟨2,0,0⟩, ⟨3,0,0⟩] : List MPoint) :=
  getPoints_roundtrip ([⟨0,0,0⟩, ⟨1,0,0⟩, ⟨2,0,0⟩, ⟨3,0,0⟩] : List MPoint) [2,0,3,1] [1,3,0,2]
    (by decide) (by decide) (by decide) (by decide) (by decide)

/-- The in-place connectivity rewrite loop of `getPolys`: after `m` steps
the first `m` entries are mapped and the rest untouched. -/
theorem remapLoop_inv (pointOrder conn : List Int) :
    ∀ m, m ≤ conn.length →
      (List.range m).foldl (fun acc i => acc.set i (idxInt pointOrder (acc.getD i 0))) conn
        = (conn.take m).map (fun v => idxInt pointOrder v) ++ conn.drop m := by
  intro m
  induction m with
  | zero => intro _; simp
  | succ m ih =>
      intro hm
      have hmlt : m < conn.length := by omega
      rw [List.range_succ, List.foldl_append, List.foldl_cons, List.foldl_nil, ih (by omega)]
      have hlenA : ((conn.take m).map (fun v => idxInt pointOrder v)).length = m := by
        simp [List.length_take]
        omega
      have hd : conn.drop m = conn[m] :: conn.drop (m + 1) := List.drop_eq_getElem_cons hmlt
      have hget : (((conn.take m).map (fun v => idxInt pointOrder v)) ++ conn.drop m).getD m 0
          = conn[m] := by
        rw [List.getD_append_right _ _ _ _ (le_of_eq hlenA), hlenA, Nat.sub_self, hd]
        rfl
      rw [hget, List.set_append]
      rw [if_neg (by omega), hlenA, Nat.sub_self, hd, List.set_cons_zero]
      have htake : (conn.take (m + 1)).map (fun v => idxInt pointOrder v)
          = (conn.take m).map (fun v => idxInt pointOrder v)
            ++ [idxInt pointOrder conn[m]] := by
        rw [List.take_succ, List.map_append]
        congr 1
        have : conn[m]? = some conn[m] := List.getElem?_eq_getElem hmlt
        rw [this]
        rfl
      rw [htake]
      simp

/-! ### C2 -/

/-- C2: `getPolys` returns the per-face counts unchanged in all cases;
with `reorderPoints` set, every connectivity entry `v` (in range for
`pointOrder`) becomes `pointOrder[v]`; with it unset, the connectivity is
returned unchanged. -/
theorem getPolys_contract (polyCounts polyConnects pointOrder : List Int)
    (reorderPoints : Bool)
    (hv : ∀ v ∈ polyConnects, 0 ≤ v ∧ v.toNat < pointOrder.length) :
    (getPolys polyCounts polyConnects pointOrder reorderPoints).2.1 = polyCounts ∧
    (reorderPoints = false →
      (getPolys polyCounts polyConnects pointOrder reorderPoints).2.2 = polyConnects) ∧
    (reorderPoints = true →
      (getPolys polyCounts polyConnects pointOrder reorderPoints).2.2
        = polyConnects.map (fun v => pointOrder.getD v.toNat 0)) := by
  refine ⟨by cases reorderPoints <;> simp [getPolys], ?_, ?_⟩
  · rintro rfl
    simp [getPolys]
  · rintro rfl
    show (List.range polyConnects.length).foldl
        (fun acc i => acc.set i (idxInt pointOrder (acc.getD i 0))) polyConnects
      = polyConnects.map (fun v => pointOrder.getD v.toNat 0)
    rw [remapLoop_inv pointOrder polyConnects polyConnects.length le_rfl]
    simp only [List.take_length, List.drop_length, List.append_nil]
    apply List.map_congr_left
    intro v hvmem
    obtain ⟨hv0, _⟩ := hv v hvmem
    simp [idxInt, hv0]

/-- C2 (witness): the topology remap on two concrete triangles of a
tetrahedron with point order `[2,0,3,1]`. -/
theorem getPolys_contract_witness :
    (getPolys [3, 3] [0, 1, 2, 1, 2, 3] [2, 0, 3, 1] true).2.1 = [3, 3] ∧
    ((true : Bool) = false →
      (getPolys [3, 3] [0, 1, 2, 1, 2, 3] [2, 0, 3, 1] true).2.2 = [0, 1, 2, 1, 2, 3]) ∧
    ((true : Bool) = true →
      (getPolys [3, 3] [0, 1, 2, 1, 2, 3] [2, 0, 3, 1] true).2.2
        = ([0, 1, 2, 1, 2, 3] : List Int).map
            (fun v => ([2, 0, 3, 1] : List Int).getD v.toNat 0)) :=
  getPolys_contract [3, 3] [0, 1, 2, 1, 2, 3] [2, 0, 3, 1] true (by decide)

/-- A consecutive slice of `conn`, read entry by entry, is a
take-of-drop. -/
theorem slice_map_range (conn : List Int) (idx k : Nat) (h : idx + k ≤ conn.length) :
    (List.range k).map (fun j => conn.getD (idx + j) 0) = (conn.drop idx).take k := by
  apply List.ext_getElem
  · simp
    omega
  · intro j h1 h2
    simp only [List.getElem_map, List.getElem_range, List.getElem_take, List.getElem_drop]
    rw [List.getD_eq_getElem _ _ (by simp at h1; omega)]

/-- The inner fill loop of `getFaceVertexList` equals two consecutive
`writeFrom`s (face ids into the first array, the connectivity slice into
the second) and advances the corner index by the count. -/
theorem fvFill_eq (polyConnects : List Int) (face : Nat) :
    ∀ (c idx : Nat) (fl vl : List Int),
      fvFill polyConnects face c idx (fl, vl)
        = ((writeFrom fl idx (List.replicate c (Int.ofNat face)),
            writeFrom vl idx ((List.range c).map (fun j => polyConnects.getD (idx + j) 0))),
           idx + c) := by
  intro c
  induction c with
  | zero =>
      intro idx fl vl
      simp [fvFill, writeFrom]
  | succ c ih =>
      intro idx fl vl
      have h2 : (List.range (c + 1)).map (fun j => polyConnects.getD (idx + j) 0)
          = polyConnects.getD idx 0
            :: (List.range c).map (fun j => polyConnects.getD (idx + 1 + j) 0) := by
        rw [List.range_succ_eq_map]
        simp only [List.map_cons, List.map_map, Nat.add_zero]
        congr 1
        apply List.map_congr_left
        intro j _
        simp only [Function.comp_apply, Nat.succ_eq_add_one]
        congr 1
        omega
      rw [h2]
      show fvFill polyConnects face c (idx + 1)
          (fl.set idx (Int.ofNat face), vl.set idx (polyConnects.getD idx 0)) = _
      rw [ih]
      show _ = ((writeFrom (fl.set idx (Int.ofNat face)) (idx + 1)
          (List.replicate c (Int.ofNat face)),
        writeFrom (vl.set idx (polyConnects.getD idx 0)) (idx + 1)
          ((List.range c).map (fun j => polyConnects.getD (idx + 1 + j) 0))), idx + (c + 1))
      congr 1
      omega

/-- The length of the face-id sequence is the total corner count. -/
theorem faceIdSeq_length (polyCounts : List Int) :
    ∀ f0, (faceIdSeq f0 polyCounts).length = cornerSum polyCounts := by
  induction polyCounts with
  | nil => intro f0; simp [faceIdSeq, cornerSum]
  | cons c rest ih =>
      intro f0
      simp only [faceIdSeq, List.length_append, List.length_replicate, ih]
      simp [cornerSum]

/-- The outer loop of `getFaceVertexList`: starting at corner `idx` with
exactly-fitting arrays, it overwrites the tails with the face-id sequence
and the connectivity. -/
theorem fvOuter_spec (polyConnects : List Int) :
    ∀ (polyCounts : List Int) (face idx : Nat) (fl vl : List Int),
      fl.length = polyConnects.length → vl.length = polyConnects.length →
      idx + cornerSum polyCounts = polyConnects.length →
      fvOuter polyConnects polyCounts face idx (fl, vl)
        = (fl.take idx ++ faceIdSeq face polyCounts,
           vl.take idx ++ polyConnects.drop idx) := by
  intro polyCounts
  induction polyCounts with
  | nil =>
      intro face idx fl vl hfl hvl hsum
      simp only [cornerSum, List.map_nil, List.sum_nil, Nat.add_zero] at hsum
      simp only [fvOuter, faceIdSeq, List.append_nil]
      have h1 : List.take idx fl = fl := List.take_of_length_le (by omega)
      have h2 : List.take idx vl ++ List.drop idx polyConnects = vl := by
        rw [List.take_of_length_le (by omega), List.drop_eq_nil_of_le (by omega),
          List.append_nil]
      rw [h1, h2]
  | cons c rest ih =>
      intro face idx fl vl hfl hvl hsum
      have hcs : cornerSum (c :: rest) = c.toNat + cornerSum rest := by
        simp [cornerSum]
      have hfit : idx + c.toNat ≤ polyConnects.length := by omega
      show fvOuter polyConnects rest (face + 1)
          (fvFill polyConnects face c.toNat idx (fl, vl)).2
          (fvFill polyConnects face c.toNat idx (fl, vl)).1 = _
      rw [fvFill_eq]
      rw [ih (face + 1) (idx + c.toNat) _ _
        (by rw [writeFrom_length]; exact hfl)
        (by rw [writeFrom_length]; exact hvl)
        (by omega)]
      have hR : writeFrom fl idx (List.replicate c.toNat (Int.ofNat face))
          = fl.take idx ++ List.replicate c.toNat (Int.ofNat face)
            ++ fl.drop (idx + c.toNat) := by
        rw [writeFrom_spec _ _ _ (by simp [List.length_replicate]; omega)]
        simp [List.length_replicate]
      have hM : writeFrom vl idx
            ((List.range c.toNat).map (fun j => polyConnects.getD (idx + j) 0))
          = vl.take idx
            ++ (List.range c.toNat).map (fun j => polyConnects.getD (idx + j) 0)
            ++ vl.drop (idx + c.toNat) := by
        rw [writeFrom_spec _ _ _ (by simp [List.length_map, List.length_range]; omega)]
        simp [List.length_map, List.length_range]
      have eR : List.take (idx + c.toNat)
            (writeFrom fl idx (List.replicate c.toNat (Int.ofNat face)))
          = List.take idx fl ++ List.replicate c.toNat (Int.ofNat face) := by
        rw [hR]
        exact List.take_left'
          (by simp [List.length_take, List.length_replicate]; omega)
      have eM : List.take (idx + c.toNat)
            (writeFrom vl idx
              ((List.range c.toNat).map (fun j => polyConnects.getD (idx + j) 0)))
          = List.take idx vl
            ++ (List.range c.toNat).map (fun j => polyConnects.getD (idx + j) 0) := by
        rw [hM]
        exact List.take_left'
          (by simp [List.length_take, List.length_map, List.length_range]; omega)
      rw [eR, eM, slice_map_range polyConnects idx c.toNat hfit]
      have e1 : (List.take idx fl ++ List.replicate c.toNat (Int.ofNat face))
            ++ faceIdSeq (face + 1) rest
          = List.take idx fl ++ faceIdSeq face (c :: rest) := by
        rw [List.append_assoc]
        rfl
      have e2 : (List.take idx vl ++ List.take c.toNat (List.drop idx polyConnects))
            ++ List.drop (idx + c.toNat) polyConnects
          = List.take idx vl ++ List.drop idx polyConnects := by
        rw [List.append_assoc]
        congr 1
        have hd : List.drop (idx + c.toNat) polyConnects
            = List.drop c.toNat (List.drop idx polyConnects) := by
          rw [List.drop_drop]
          try congr 1
          try omega
        rw [hd, List.take_append_drop]
      rw [e1, e2]

/-- Nonnegative per-face counts sum (over `Int`) to the `Nat` corner
sum. -/
theorem cornerSum_eq_intSum (polyCounts : List Int)
    (hpos : ∀ c ∈ polyCounts, 0 ≤ c) :
    (cornerSum polyCounts : Int) = polyCounts.sum := by
  induction polyCounts with
  | nil => simp [cornerSum]
  | cons c rest ih =>
      have hc := hpos c (by simp)
      have hrest : ∀ x ∈ rest, 0 ≤ x := fun x hx => hpos x (by simp [hx])
      have ihr := ih hrest
      simp only [cornerSum] at ihr
      simp only [cornerSum, List.map_cons, List.sum_cons]
      rw [Nat.cast_add, Int.toNat_of_nonneg hc]
      omega

/-! ### C8 -/

/-- C8: for every nonnegative per-face count array and connectivity array
with `sum(counts) = len(connectivity)`, `getFaceVertexList` produces
`faceList` and `vertexList` of length `sum(counts)` with
`vertexList = connectivity` and `faceList` the sequence in which face `f`
contributes `counts[f]` consecutive copies of its id, faces in order. -/
theorem getFaceVertexList_spec (polyCounts polyConnects : List Int)
    (hpos : ∀ c ∈ polyCounts, 0 ≤ c)
    (hsum : polyCounts.sum = (polyConnects.length : Int)) :
    (getFaceVertexList polyCounts polyConnects).1.length = polyConnects.length ∧
    (getFaceVertexList polyCounts polyConnects).2.length = polyConnects.length ∧
    (getFaceVertexList polyCounts polyConnects).2 = polyConnects ∧
    (getFaceVertexList polyCounts polyConnects).1 = faceIdSeq 0 polyCounts := by
  have hc : cornerSum polyCounts = polyConnects.length := by
    have h := cornerSum_eq_intSum polyCounts hpos
    omega
  unfold getFaceVertexList
  rw [fvOuter_spec polyConnects polyCounts 0 0 _ _
    (by simp [List.length_replicate]) (by simp [List.length_replicate]) (by omega)]
  refine ⟨?_, ?_, ?_, ?_⟩ <;>
      simp only [List.take_zero, List.drop_zero, List.nil_append] <;>
    first
      | (rw [faceIdSeq_length]; omega)
      | rfl

/-- C8 (witness): the enumeration on two concrete triangles. -/
theorem getFaceVertexList_spec_witness :
    (getFaceVertexList [3, 3] [0, 1, 2, 1, 2, 3]).1.length
        = ([0, 1, 2, 1, 2, 3] : List Int).length ∧
    (getFaceVertexList [3, 3] [0, 1, 2, 1, 2, 3]).2.length
        = ([0, 1, 2, 1, 2, 3] : List Int).length ∧
    (getFaceVertexList [3, 3] [0, 1, 2, 1, 2, 3]).2 = [0, 1, 2, 1, 2, 3] ∧
    (getFaceVertexList [3, 3] [0, 1, 2, 1, 2, 3]).1 = faceIdSeq 0 [3, 3] :=
  getFaceVertexList_spec [3, 3] [0, 1, 2, 1, 2, 3] (by decide) (by decide)

/-- One face of the `getFaceVertexNormals` loop: consecutive writes, the
in-bounds flag, and the advanced corner index. -/
theorem fvnFace_arr (vs : List MVector) :
    ∀ (arr : List MVector) (ok : Bool) (i : Nat),
      fvnFace vs (arr, ok, i)
        = (writeFrom arr i vs,
           ok && decide (vs = [] ∨ i + vs.length ≤ arr.length),
           i + vs.length) := by
  induction vs with
  | nil =>
      intro arr ok i
      simp [fvnFace, writeFrom]
  | cons v vs ih =>
      intro arr ok i
      show fvnFace vs (arr.set i v, ok && decide (i < arr.length), i + 1) = _
      rw [ih]
      simp only [List.length_set, List.length_cons, Prod.mk.injEq]
      refine ⟨by rw [writeFrom], ?_, by omega⟩
      rw [Bool.and_assoc]
      congr 1
      rw [Bool.eq_iff_iff]
      simp only [Bool.and_eq_true, decide_eq_true_iff]
      rw [← List.length_eq_zero, ← List.length_eq_zero]
      simp only [List.length_cons]
      omega

/-- All faces of the `getFaceVertexNormals` loop: a single consecutive
write of the flattened normals starting at `i`, with the flag recording
that the whole block fits. -/
theorem fvnAll_spec (faceNormals : List (List MVector)) :
    ∀ (arr : List MVector) (ok : Bool) (i : Nat),
      fvnAll faceNormals (arr, ok, i)
        = (writeFrom arr i faceNormals.flatten,
           ok && decide ((faceNormals.map List.length).sum = 0
             ∨ i + (faceNormals.map List.length).sum ≤ arr.length),
           i + (faceNormals.map List.length).sum) := by
  induction faceNormals with
  | nil =>
      intro arr ok i
      simp [fvnAll, writeFrom]
  | cons f fs ih =>
      intro arr ok i
      show fvnAll fs (fvnFace f (arr, ok, i)) = _
      rw [fvnFace_arr, ih]
      simp only [writeFrom_length, List.flatten_cons, List.map_cons, List.sum_cons,
        Prod.mk.injEq]
      refine ⟨by rw [writeFrom_append], ?_, by omega⟩
      rw [Bool.and_assoc]
      congr 1
      rw [Bool.eq_iff_iff]
      simp only [Bool.and_eq_true, decide_eq_true_iff]
      rw [← List.length_eq_zero]
      omega

/-! ### C10 -/

/-- C10: `getFaceVertexNormals` never resizes the caller's array and
writes the target's corner normals at consecutive indices; every write is
in bounds exactly when the array was pre-sized to at least the total
face-corner count; under that precondition it fills exactly indices
`0 .. total-1` (leaving the tail unchanged); and the pre-sizing
`reorderMesh` performs — `setLength(polyConnects.length())` — establishes
the precondition whenever the target's corner count equals the
connectivity length. -/
theorem getFaceVertexNormals_spec (faceNormals : List (List MVector))
    (vertexNormals : List MVector) :
    (getFaceVertexNormals faceNormals vertexNormals).1 = MStatus.kSuccess ∧
    (getFaceVertexNormals faceNormals vertexNormals).2.1.length = vertexNormals.length ∧
    ((getFaceVertexNormals faceNormals vertexNormals).2.2 = true
      ↔ (faceNormals.map List.length).sum ≤ vertexNormals.length) ∧
    ((faceNormals.map List.length).sum ≤ vertexNormals.length →
      (getFaceVertexNormals faceNormals vertexNormals).2.1
        = faceNormals.flatten
          ++ vertexNormals.drop ((faceNormals.map List.length).sum)) ∧
    (∀ polyConnects : List Int,
      (faceNormals.map List.length).sum = polyConnects.length →
      (getFaceVertexNormals faceNormals
        (List.replicate polyConnects.length (default : MVector))).2.2 = true) := by
  refine ⟨rfl, ?_, ?_, ?_, ?_⟩
  · show (fvnAll faceNormals (vertexNormals, true, 0)).1.length = vertexNormals.length
    rw [fvnAll_spec]
    exact writeFrom_length _ _ _
  · show (fvnAll faceNormals (vertexNormals, true, 0)).2.1 = true ↔ _
    rw [fvnAll_spec]
    simp only [Bool.true_and, decide_eq_true_iff]
    omega
  · intro h
    show (fvnAll faceNormals (vertexNormals, true, 0)).1 = _
    rw [fvnAll_spec]
    rw [writeFrom_spec _ _ _ (by rw [List.length_flatten]; omega)]
    simp [List.length_flatten]
  · intro polyConnects h
    show (fvnAll faceNormals
      (List.replicate polyConnects.length (default : MVector), true, 0)).2.1 = true
    rw [fvnAll_spec]
    simp only [Bool.true_and, decide_eq_true_iff, List.length_replicate]
    omega

/-- C10 (witness): two faces with three corners in total, written into an
array pre-sized to the connectivity length 3. -/
theorem getFaceVertexNormals_spec_witness :
    (getFaceVertexNormals [[⟨1,0,0⟩, ⟨2,0,0⟩], [⟨3,0,0⟩]]
        (List.replicate 3 (default : MVector))).1 = MStatus.kSuccess ∧
    (getFaceVertexNormals [[⟨1,0,0⟩, ⟨2,0,0⟩], [⟨3,0,0⟩]]
        (List.replicate 3 (default : MVector))).2.1.length
      = (List.replicate 3 (default : MVector)).length ∧
    ((getFaceVertexNormals [[⟨1,0,0⟩, ⟨2,0,0⟩], [⟨3,0,0⟩]]
        (List.replicate 3 (default : MVector))).2.2 = true
      ↔ (([[⟨1,0,0⟩, ⟨2,0,0⟩], [⟨3,0,0⟩]] : List (List MVector)).map List.length).sum
          ≤ (List.replicate 3 (default : MVector)).length) ∧
    ((([[⟨1,0,0⟩, ⟨2,0,0⟩], [⟨3,0,0⟩]] : List (List MVector)).map List.length).sum
          ≤ (List.replicate 3 (default : MVector)).length →
      (getFaceVertexNormals [[⟨1,0,0⟩, ⟨2,0,0⟩], [⟨3,0,0⟩]]
          (List.replicate 3 (default : MVector))).2.1
        = ([[⟨1,0,0⟩, ⟨2,0,0⟩], [⟨3,0,0⟩]] : List (List MVector)).flatten
          ++ (List.replicate 3 (default : MVector)).drop
              ((([[⟨1,0,0⟩, ⟨2,0,0⟩], [⟨3,0,0⟩]] : List (List MVector)).map List.length).sum)) ∧
    (∀ polyConnects : List Int,
      (([[⟨1,0,0⟩, ⟨2,0,0⟩], [⟨3,0,0⟩]] : List (List MVector)).map List.length).sum
        = polyConnects.length →
      (getFaceVertexNormals [[⟨1,0,0⟩, ⟨2,0,0⟩], [⟨3,0,0⟩]]
        (List.replicate polyConnects.length (default : MVector))).2.2 = true) :=
  getFaceVertexNormals_spec [[⟨1,0,0⟩, ⟨2,0,0⟩], [⟨3,0,0⟩]]
    (List.replicate 3 (default : MVector))

/-- The face-vertex enumeration loops never change the array lengths. -/
theorem fvOuter_length (polyConnects : List Int) :
    ∀ (polyCounts : List Int) (face idx : Nat) (fl vl : List Int),
      (fvOuter polyConnects polyCounts face idx (fl, vl)).1.length = fl.length ∧
      (fvOuter polyConnects polyCounts face idx (fl, vl)).2.length = vl.length := by
  intro polyCounts
  induction polyCounts with
  | nil =>
      intro face idx fl vl
      simp [fvOuter]
  | cons c rest ih =>
      intro face idx fl vl
      have key := fvFill_eq polyConnects face c.toNat idx fl vl
      show (fvOuter polyConnects rest (face + 1)
          (fvFill polyConnects face c.toNat idx (fl, vl)).2
          (fvFill polyConnects face c.toNat idx (fl, vl)).1).1.length = fl.length ∧
        (fvOuter polyConnects rest (face + 1)
          (fvFill polyConnects face c.toNat idx (fl, vl)).2
          (fvFill polyConnects face c.toNat idx (fl, vl)).1).2.length = vl.length
      rw [key]
      dsimp only
      exact ⟨(ih _ _ _ _).1.trans (writeFrom_length _ _ _),
        (ih _ _ _ _).2.trans (writeFrom_length _ _ _)⟩

/-- Both outputs of `getFaceVertexList` always have the connectivity's
length. -/
theorem getFaceVertexList_length (polyCounts polyConnects : List Int) :
    (getFaceVertexList polyCounts polyConnects).1.length = polyConnects.length ∧
    (getFaceVertexList polyCounts polyConnects).2.length = polyConnects.length := by
  unfold getFaceVertexList
  obtain ⟨h1, h2⟩ := fvOuter_length polyConnects polyCounts 0 0
    (List.replicate polyConnects.length 0) (List.replicate polyConnects.length 0)
  exact ⟨by rw [h1, List.length_replicate], by rw [h2, List.length_replicate]⟩

/-- Reading two equal-length arrays entry by entry over `range n` is their
zip. -/
theorem range_map_getD_zip (fl vl : List Int) (n : Nat)
    (hfl : fl.length = n) (hvl : vl.length = n) :
    (List.range n).map (fun i => (fl.getD i 0, vl.getD i 0)) = fl.zip vl := by
  apply List.ext_getElem
  · simp [hfl, hvl]
  · intro k h1 h2
    simp only [List.getElem_map, List.getElem_range, List.getElem_zip]
    rw [List.getD_eq_getElem _ _ (by simp at h1; omega),
      List.getD_eq_getElem _ _ (by simp at h1; omega)]

/-- The partition loop of `setFaceVertexLocks` produces exactly the two
complementary filtered subsequences of the corner enumeration. -/
theorem partition_fold (flags fl vl : List Int) :
    ∀ n : Nat,
      (List.range n).foldl
        (fun (p : List (Int × Int) × List (Int × Int)) i =>
          if flags.getD i 0 = 1 then
            (p.1 ++ [(fl.getD i 0, vl.getD i 0)], p.2)
          else
            (p.1, p.2 ++ [(fl.getD i 0, vl.getD i 0)]))
        ([], [])
      = (lockedSubset flags fl vl n, unlockedSubset flags fl vl n) := by
  intro n
  induction n with
  | zero => rfl
  | succ n ih =>
      rw [List.range_succ, List.foldl_append, List.foldl_cons, List.foldl_nil, ih]
      unfold lockedSubset unlockedSubset
      rw [List.range_succ, List.filter_append, List.filter_append,
        List.map_append, List.map_append]
      by_cases h : flags.getD n 0 = 1
      · rw [if_pos h]
        simp only [List.filter_cons, List.filter_nil, decide_eq_true h, Bool.not_true,
          if_true, Bool.false_eq_true, if_false, List.map_cons, List.map_nil,
          List.append_nil]
      · rw [if_neg h]
        simp only [List.filter_cons, List.filter_nil, decide_eq_false h, Bool.not_false,
          if_true, Bool.false_eq_true, if_false, List.map_cons, List.map_nil,
          List.append_nil]

/-! ### C3 -/

/-- C3: `setFaceVertexLocks` splits the enumerated `(face, vertex)` corner
pairs into the locked subset (flag `= 1`) and the unlocked subset (flag
`≠ 1`): their lengths sum to the corner count, together they are a
permutation of the corner enumeration (every corner in exactly one
subset), each is a subsequence of the enumeration (relative order
preserved), and — with succeeding store calls — the bulk unlock call is
issued before the bulk lock call, each carrying exactly its subset and
skipped entirely (no call) when its subset is empty. -/
theorem setFaceVertexLocks_partition (ms : MeshCall → MStatus)
    (polyCounts polyConnects lockedList : List Int)
    (hms : ∀ c, ms c = MStatus.kSuccess)
    (hlen : lockedList.length = polyConnects.length) :
    ∀ fv L U, fv = getFaceVertexList polyCounts polyConnects →
      L = lockedSubset lockedList fv.1 fv.2 polyConnects.length →
      U = unlockedSubset lockedList fv.1 fv.2 polyConnects.length →
      L.length + U.length = polyConnects.length ∧
      (L ++ U).Perm (fv.1.zip fv.2) ∧
      L.Sublist (fv.1.zip fv.2) ∧
      U.Sublist (fv.1.zip fv.2) ∧
      setFaceVertexLocks ms polyCounts polyConnects MStatus.kSuccess lockedList
        = (MStatus.kSuccess,
           (if U = [] then []
            else [MeshCall.unlockFaceVertexNormalsCall (U.map Prod.fst) (U.map Prod.snd)])
           ++ (if L = [] then []
            else [MeshCall.lockFaceVertexNormalsCall (L.map Prod.fst) (L.map Prod.snd)])) := by
  rintro fv L U rfl rfl rfl
  obtain ⟨hfl, hvl⟩ := getFaceVertexList_length polyCounts polyConnects
  have hzip := range_map_getD_zip (getFaceVertexList polyCounts polyConnects).1
    (getFaceVertexList polyCounts polyConnects).2 polyConnects.length hfl hvl
  have hperm0 := List.filter_append_perm
    (fun i => decide (lockedList.getD i 0 = 1)) (List.range polyConnects.length)
  have hperm : ((lockedSubset lockedList (getFaceVertexList polyCounts polyConnects).1
        (getFaceVertexList polyCounts polyConnects).2 polyConnects.length)
      ++ (unlockedSubset lockedList (getFaceVertexList polyCounts polyConnects).1
        (getFaceVertexList polyCounts polyConnects).2 polyConnects.length)).Perm
      ((getFaceVertexList polyCounts polyConnects).1.zip
        (getFaceVertexList polyCounts polyConnects).2) := by
    have h := hperm0.map (fun i =>
      ((getFaceVertexList polyCounts polyConnects).1.getD i 0,
       (getFaceVertexList polyCounts polyConnects).2.getD i 0))
    rw [List.map_append, hzip] at h
    exact h
  have hlenLU : (lockedSubset lockedList (getFaceVertexList polyCounts polyConnects).1
        (getFaceVertexList polyCounts polyConnects).2 polyConnects.length).length
      + (unlockedSubset lockedList (getFaceVertexList polyCounts polyConnects).1
        (getFaceVertexList polyCounts polyConnects).2 polyConnects.length).length
      = polyConnects.length := by
    have h := hperm.length_eq
    rw [List.length_append] at h
    rw [h, List.length_zip, hfl, hvl]
    omega
  refine ⟨hlenLU, hperm, ?_, ?_, ?_⟩
  · rw [← hzip]
    exact ((List.filter_sublist _).map _)
  · rw [← hzip]
    exact ((List.filter_sublist _).map _)
  · simp only [setFaceVertexLocks]
    try rw [if_neg (by simp : ¬ (MStatus.kSuccess ≠ MStatus.kSuccess))]
    rw [partition_fold]
    dsimp only
    simp only [hms]
    have hK : ¬ (MStatus.kSuccess ≠ MStatus.kSuccess) := by simp
    simp only [if_neg hK]
    by_cases hU : unlockedSubset lockedList (getFaceVertexList polyCounts polyConnects).1
        (getFaceVertexList polyCounts polyConnects).2 polyConnects.length = [] <;>
      by_cases hL : lockedSubset lockedList (getFaceVertexList polyCounts polyConnects).1
          (getFaceVertexList polyCounts polyConnects).2 polyConnects.length = [] <;>
      simp [hU, hL]

/-- C3 (witness): a single quad with corners 0 and 2 locked: one unlock
call with the two unlocked corners, then one lock call with the two locked
corners. -/
theorem setFaceVertexLocks_partition_witness :
    ((lockedSubset [1, 0, 1, 0] (getFaceVertexList [4] [0, 1, 2, 3]).1
        (getFaceVertexList [4] [0, 1, 2, 3]).2 ([0, 1, 2, 3] : List Int).length).length
      + (unlockedSubset [1, 0, 1, 0] (getFaceVertexList [4] [0, 1, 2, 3]).1
          (getFaceVertexList [4] [0, 1, 2, 3]).2 ([0, 1, 2, 3] : List Int).length).length
      = ([0, 1, 2, 3] : List Int).length) ∧
    ((lockedSubset [1, 0, 1, 0] (getFaceVertexList [4] [0, 1, 2, 3]).1
        (getFaceVertexList [4] [0, 1, 2, 3]).2 ([0, 1, 2, 3] : List Int).length
      ++ unlockedSubset [1, 0, 1, 0] (getFaceVertexList [4] [0, 1, 2, 3]).1
          (getFaceVertexList [4] [0, 1, 2, 3]).2 ([0, 1, 2, 3] : List Int).length).Perm
      ((getFaceVertexList [4] [0, 1, 2, 3]).1.zip (getFaceVertexList [4] [0, 1, 2, 3]).2)) ∧
    ((lockedSubset [1, 0, 1, 0] (getFaceVertexList [4] [0, 1, 2, 3]).1
        (getFaceVertexList [4] [0, 1, 2, 3]).2 ([0, 1, 2, 3] : List Int).length).Sublist
      ((getFaceVertexList [4] [0, 1, 2, 3]).1.zip (getFaceVertexList [4] [0, 1, 2, 3]).2)) ∧
    ((unlockedSubset [1, 0, 1, 0] (getFaceVertexList [4] [0, 1, 2, 3]).1
        (getFaceVertexList [4] [0, 1, 2, 3]).2 ([0, 1, 2, 3] : List Int).length).Sublist
      ((getFaceVertexList [4] [0, 1, 2, 3]).1.zip (getFaceVertexList [4] [0, 1, 2, 3]).2)) ∧
    setFaceVertexLocks (fun _ => MStatus.kSuccess) [4] [0, 1, 2, 3] MStatus.kSuccess [1, 0, 1, 0]
      = (MStatus.kSuccess,
         (if unlockedSubset [1, 0, 1, 0] (getFaceVertexList [4] [0, 1, 2, 3]).1
              (getFaceVertexList [4] [0, 1, 2, 3]).2 ([0, 1, 2, 3] : List Int).length = [] then []
          else [MeshCall.unlockFaceVertexNormalsCall
            ((unlockedSubset [1, 0, 1, 0] (getFaceVertexList [4] [0, 1, 2, 3]).1
              (getFaceVertexList [4] [0, 1, 2, 3]).2
              ([0, 1, 2, 3] : List Int).length).map Prod.fst)
            ((unlockedSubset [1, 0, 1, 0] (getFaceVertexList [4] [0, 1, 2, 3]).1
              (getFaceVertexList [4] [0, 1, 2, 3]).2
              ([0, 1, 2, 3] : List Int).length).map Prod.snd)])
         ++ (if lockedSubset [1, 0, 1, 0] (getFaceVertexList [4] [0, 1, 2, 3]).1
              (getFaceVertexList [4] [0, 1, 2, 3]).2 ([0, 1, 2, 3] : List Int).length = [] then []
          else [MeshCall.lockFaceVertexNormalsCall
            ((lockedSubset [1, 0, 1, 0] (getFaceVertexList [4] [0, 1, 2, 3]).1
              (getFaceVertexList [4] [0, 1, 2, 3]).2
              ([0, 1, 2, 3] : List Int).length).map Prod.fst)
            ((lockedSubset [1, 0, 1, 0] (getFaceVertexList [4] [0, 1, 2, 3]).1
              (getFaceVertexList [4] [0, 1, 2, 3]).2
              ([0, 1, 2, 3] : List Int).length).map Prod.snd)])) :=
  setFaceVertexLocks_partition (fun _ => MStatus.kSuccess) [4] [0, 1, 2, 3] [1, 0, 1, 0]
    (fun _ => rfl) (by decide)
    (getFaceVertexList [4] [0, 1, 2, 3])
    (lockedSubset [1, 0, 1, 0] (getFaceVertexList [4] [0, 1, 2, 3]).1
      (getFaceVertexList [4] [0, 1, 2, 3]).2 ([0, 1, 2, 3] : List Int).length)
    (unlockedSubset [1, 0, 1, 0] (getFaceVertexList [4] [0, 1, 2, 3]).1
      (getFaceVertexList [4] [0, 1, 2, 3]).2 ([0, 1, 2, 3] : List Int).length)
    rfl rfl rfl

/-! ### C6 -/

/-- C6: `setEdgeSmoothing` never fails — it returns success on every
input — and issues one `setSmoothing` per output-mesh edge carrying the
`operator[]` read of the map; for every key absent from the map that read
is the value-initialized `false`, so such an edge is set to not-smooth
(hard) with no error reported. -/
theorem setEdgeSmoothing_missing_key (outEdges : List (Int × Int))
    (edgeSmoothing : List (Nat × Bool)) :
    (setEdgeSmoothing outEdges edgeSmoothing).1 = MStatus.kSuccess ∧
    (setEdgeSmoothing outEdges edgeSmoothing).2
      = outEdges.map (fun e =>
          MeshCall.setSmoothing e.1 e.2 (mapGet edgeSmoothing (twoIntKey e.1 e.2))) ∧
    (∀ k, edgeSmoothing.lookup k = none → mapGet edgeSmoothing k = false) := by
  refine ⟨rfl, rfl, ?_⟩
  intro k hk
  simp [mapGet, hk]

/-- C6 (witness): a map holding only edge `(0,1)`; the output edge `(2,3)`
has no entry, its `setSmoothing` call carries `false`, and the function
returns success. -/
theorem setEdgeSmoothing_missing_key_witness :
    (setEdgeSmoothing [((0 : Int), (1 : Int)), (2, 3)] [(twoIntKey 0 1, true)]).1
        = MStatus.kSuccess ∧
    (setEdgeSmoothing [((0 : Int), (1 : Int)), (2, 3)] [(twoIntKey 0 1, true)]).2
        = ([((0 : Int), (1 : Int)), (2, 3)] : List (Int × Int)).map (fun e =>
            MeshCall.setSmoothing e.1 e.2
              (mapGet [(twoIntKey 0 1, true)] (twoIntKey e.1 e.2))) ∧
    mapGet [(twoIntKey 0 1, true)] (twoIntKey 2 3) = false := by
  obtain ⟨h1, h2, h3⟩ :=
    setEdgeSmoothing_missing_key [((0 : Int), (1 : Int)), (2, 3)] [(twoIntKey 0 1, true)]
  exact ⟨h1, h2, h3 (twoIntKey 2 3) (by decide)⟩

/-! ### C9 -/

/-- C9: `setUVs` processes the sets in list order, and per set issues: the
create call only when the set's name is not `"map1"` (its status is never
consulted, so a failing create is non-fatal and processing continues),
then the clear, then the coordinate write, then the assignment write.
When every clear/coordinate/assignment call succeeds the result is
success with the trace the concatenation of the per-set blocks; a failing
clear, coordinate write, or assignment write aborts with exactly that
status, issuing no later calls. -/
theorem setUVs_order (ms : MeshCall → MStatus) (uvSets : List UVSetData) :
    ((∀ d ∈ uvSets, ms (MeshCall.clearUVs d.name) = MStatus.kSuccess ∧
        ms (MeshCall.setUVsCall d.name d.uArray d.vArray) = MStatus.kSuccess ∧
        ms (MeshCall.assignUVs d.name d.uvCounts d.uvIds) = MStatus.kSuccess) →
      setUVs ms uvSets = (MStatus.kSuccess, (uvSets.map uvCallBlock).flatten)) ∧
    (∀ d rest, uvSets = d :: rest →
      ms (MeshCall.clearUVs d.name) ≠ MStatus.kSuccess →
      setUVs ms uvSets
        = (ms (MeshCall.clearUVs d.name),
           (if d.name ≠ "map1" then [MeshCall.createUVSet d.name] else [])
             ++ [MeshCall.clearUVs d.name])) ∧
    (∀ d rest, uvSets = d :: rest →
      ms (MeshCall.clearUVs d.name) = MStatus.kSuccess →
      ms (MeshCall.setUVsCall d.name d.uArray d.vArray) ≠ MStatus.kSuccess →
      setUVs ms uvSets
        = (ms (MeshCall.setUVsCall d.name d.uArray d.vArray),
           (if d.name ≠ "map1" then [MeshCall.createUVSet d.name] else [])
             ++ [MeshCall.clearUVs d.name,
                 MeshCall.setUVsCall d.name d.uArray d.vArray])) ∧
    (∀ d rest, uvSets = d :: rest →
      ms (MeshCall.clearUVs d.name) = MStatus.kSuccess →
      ms (MeshCall.setUVsCall d.name d.uArray d.vArray) = MStatus.kSuccess →
      ms (MeshCall.assignUVs d.name d.uvCounts d.uvIds) ≠ MStatus.kSuccess →
      setUVs ms uvSets
        = (ms (MeshCall.assignUVs d.name d.uvCounts d.uvIds), uvCallBlock d)) := by
  have hK : ¬ (MStatus.kSuccess ≠ MStatus.kSuccess) := by simp
  refine ⟨?_, ?_, ?_, ?_⟩
  · induction uvSets with
    | nil => intro _; rfl
    | cons d rest ih =>
        intro hall
        obtain ⟨h1, h2, h3⟩ := hall d (by simp)
        have hrest := ih (fun e he => hall e (by simp [he]))
        simp only [setUVs, h1, h2, h3, if_neg hK]
        rw [hrest]
        simp [uvCallBlock, List.append_assoc]
  · rintro d rest rfl h1
    simp only [setUVs, if_pos h1]
  · rintro d rest rfl h1 h2
    simp only [setUVs, h1, if_neg hK, if_pos h2]
  · rintro d rest rfl h1 h2 h3
    simp only [setUVs, h1, h2, if_neg hK, if_pos h3]
    simp [uvCallBlock]

/-- C9 (witness): two sets — the default `"map1"` and `"uvSet2"` — under a
store failing every `createUVSet` (non-fatal: the full trace is still
issued and the result is success), and the `"uvSet2"` set alone under a
store failing `clearUVs` (the set aborts right after its create and clear
calls with that failure). -/
theorem setUVs_order_witness :
    setUVs
        (fun c => match c with
          | MeshCall.createUVSet _ => MStatus.kFailure
          | _ => MStatus.kSuccess)
        [⟨"map1", [1], [2], [4], [0]⟩, ⟨"uvSet2", [5], [6], [4], [0]⟩]
      = (MStatus.kSuccess,
         (([⟨"map1", [1], [2], [4], [0]⟩, ⟨"uvSet2", [5], [6], [4], [0]⟩] :
            List UVSetData).map uvCallBlock).flatten) ∧
    setUVs
        (fun c => match c with
          | MeshCall.clearUVs _ => MStatus.kFailure
          | _ => MStatus.kSuccess)
        [⟨"uvSet2", [5], [6], [4], [0]⟩]
      = ((fun c => match c with
          | MeshCall.clearUVs _ => MStatus.kFailure
          | _ => MStatus.kSuccess) (MeshCall.clearUVs (UVSetData.name ⟨"uvSet2", [5], [6], [4], [0]⟩)),
         (if (UVSetData.name ⟨"uvSet2", [5], [6], [4], [0]⟩) ≠ "map1"
          then [MeshCall.createUVSet (UVSetData.name ⟨"uvSet2", [5], [6], [4], [0]⟩)] else [])
           ++ [MeshCall.clearUVs (UVSetData.name ⟨"uvSet2", [5], [6], [4], [0]⟩)]) :=
  ⟨(setUVs_order
      (fun c => match c with
        | MeshCall.createUVSet _ => MStatus.kFailure
        | _ => MStatus.kSuccess)
      [⟨"map1", [1], [2], [4], [0]⟩, ⟨"uvSet2", [5], [6], [4], [0]⟩]).1 (by decide),
   (setUVs_order
      (fun c => match c with
        | MeshCall.clearUVs _ => MStatus.kFailure
        | _ => MStatus.kSuccess)
      [⟨"uvSet2", [5], [6], [4], [0]⟩]).2.1
      ⟨"uvSet2", [5], [6], [4], [0]⟩ [] rfl (by decide)⟩

/-- `setPt` never changes the array length (the bounds-checked write
either lands or is dropped). -/
theorem setPt_length (arr : List MPoint) (idx : Int) (v : MPoint) :
    (setPt arr idx v).length = arr.length := by
  unfold setPt
  split <;> simp [List.length_set]

/-- `getPoints` keeps the vertex count for every `pointOrder`, bijective
or not. -/
theorem getPoints_length (targetPoints : List MPoint) (pointOrder : List Int) :
    (getPoints targetPoints pointOrder).2.length = targetPoints.length := by
  unfold getPoints
  have h : ∀ (l : List Nat) (acc : List MPoint), acc.length = targetPoints.length →
      (l.foldl (fun acc i => setPt acc (pointOrder.getD i 0) (targetPoints.getD i default))
        acc).length = targetPoints.length := by
    intro l
    induction l with
    | nil => intro acc hacc; simpa using hacc
    | cons x xs ih =>
        intro acc hacc
        exact ih _ ((setPt_length _ _ _).trans hacc)
  exact h _ _ (by simp)

/-- Every exit path of `reorderMesh` has the mesh-construction call at the
head of its trace: the six extraction calls' statuses cannot divert the
orchestration before construction. -/
theorem reorderMesh_head (src tgt : MeshStore) (pointOrder : List Int)
    (ms : MeshCall → MStatus) (outEdges : List (Int × Int))
    (outGetVerticesStatus : MStatus) (isMeshData : Bool) :
    (reorderMesh src tgt pointOrder ms outEdges outGetVerticesStatus isMeshData).2.head?
      = some (constructionCall src tgt pointOrder isMeshData) := by
  simp only [reorderMesh]
  split
  · rfl
  · split
    · rfl
    · split
      · rfl
      · split
        · rfl
        · split <;> rfl

/-! ### C4 -/

/-- C4 (counterexample): on a concrete store whose `getNormalIds` read
fails, the `getFaceVertexLocks` step reports failure, yet `reorderMesh`
proceeds through mesh construction and all remaining steps and returns
success — extraction failures do not abort the orchestration. -/
theorem reorderMesh_ignores_extraction_failure :
    (getFaceVertexLocks storeLockFail.normalIds storeLockFail.getNormalIdsStatus
        storeLockFail.isNormalLocked).1 = MStatus.kFailure ∧
    (reorderMesh storeLockFail storeLockFail [0] (fun _ => MStatus.kSuccess) []
        MStatus.kSuccess true).1 = MStatus.kSuccess ∧
    (reorderMesh storeLockFail storeLockFail [0] (fun _ => MStatus.kSuccess) []
        MStatus.kSuccess true).2
      = [MeshCall.createMesh 1 0 [⟨0, 0, 0⟩] [] [],
         MeshCall.setFaceVertexNormalsCall [] [] [],
         MeshCall.unlockFaceVertexNormalsCall [] []] := by
  decide

/-- C4 (amended): the construction step (on the new-mesh-data path) and
the `setUVs`, `setFaceVertexNormals` and `setFaceVertexLocks` steps
propagate a failure status and abort the remaining steps; but the six
extraction calls' statuses are discarded — `reorderMesh` always reaches
mesh construction — and `getPoints`, `getPolys`, `getFaceVertexNormals`,
`getEdgeSmoothing` and `setEdgeSmoothing` report success
unconditionally. -/
theorem reorderMesh_propagation (src tgt : MeshStore) (pointOrder : List Int)
    (ms : MeshCall → MStatus) (outEdges : List (Int × Int))
    (outGetVerticesStatus : MStatus) (isMeshData : Bool) :
    (reorderMesh src tgt pointOrder ms outEdges outGetVerticesStatus isMeshData).2.head?
      = some (constructionCall src tgt pointOrder isMeshData) ∧
    ((getPoints tgt.points pointOrder).1 = MStatus.kSuccess ∧
     (getPolys src.polyCounts src.polyConnects pointOrder isMeshData).1 = MStatus.kSuccess ∧
     (getFaceVertexNormals tgt.faceNormals
        (List.replicate
          ((getPolys src.polyCounts src.polyConnects pointOrder isMeshData).2.2.length)
          default)).1 = MStatus.kSuccess ∧
     (getEdgeSmoothing tgt.edges pointOrder).1 = MStatus.kSuccess ∧
     (setEdgeSmoothing outEdges (getEdgeSmoothing tgt.edges pointOrder).2).1
        = MStatus.kSuccess) ∧
    (∀ S pc2 co2 vn lk,
      S = (getUVs tgt.uvSetNames tgt.uvOf tgt.getUVsStatus tgt.getAssignedUVsStatus).2 →
      pc2 = (getPolys src.polyCounts src.polyConnects pointOrder isMeshData).2.1 →
      co2 = (getPolys src.polyCounts src.polyConnects pointOrder isMeshData).2.2 →
      vn = (getFaceVertexNormals tgt.faceNormals
        (List.replicate co2.length default)).2.1 →
      lk = (getFaceVertexLocks tgt.normalIds tgt.getNormalIdsStatus tgt.isNormalLocked).2 →
      ((isMeshData = true →
        ms (constructionCall src tgt pointOrder isMeshData) ≠ MStatus.kSuccess →
        reorderMesh src tgt pointOrder ms outEdges outGetVerticesStatus isMeshData
          = (ms (constructionCall src tgt pointOrder isMeshData),
             [constructionCall src tgt pointOrder isMeshData])) ∧
       ((isMeshData = true →
          ms (constructionCall src tgt pointOrder isMeshData) = MStatus.kSuccess) →
        ((setUVs ms S).1 ≠ MStatus.kSuccess →
          reorderMesh src tgt pointOrder ms outEdges outGetVerticesStatus isMeshData
            = ((setUVs ms S).1,
               constructionCall src tgt pointOrder isMeshData :: (setUVs ms S).2)) ∧
        ((setUVs ms S).1 = MStatus.kSuccess →
          ((setFaceVertexNormals ms pc2 co2 vn).1 ≠ MStatus.kSuccess →
            reorderMesh src tgt pointOrder ms outEdges outGetVerticesStatus isMeshData
              = ((setFaceVertexNormals ms pc2 co2 vn).1,
                 constructionCall src tgt pointOrder isMeshData
                   :: ((setUVs ms S).2 ++ (setFaceVertexNormals ms pc2 co2 vn).2))) ∧
          ((setFaceVertexNormals ms pc2 co2 vn).1 = MStatus.kSuccess →
            (setFaceVertexLocks ms pc2 co2 outGetVerticesStatus lk).1 ≠ MStatus.kSuccess →
            reorderMesh src tgt pointOrder ms outEdges outGetVerticesStatus isMeshData
              = ((setFaceVertexLocks ms pc2 co2 outGetVerticesStatus lk).1,
                 constructionCall src tgt pointOrder isMeshData
                   :: ((setUVs ms S).2 ++ (setFaceVertexNormals ms pc2 co2 vn).2
                     ++ (setFaceVertexLocks ms pc2 co2 outGetVerticesStatus lk).2))))))) := by
  refine ⟨reorderMesh_head src tgt pointOrder ms outEdges outGetVerticesStatus isMeshData,
    ⟨rfl, rfl, rfl, rfl, rfl⟩, ?_⟩
  rintro S pc2 co2 vn lk rfl rfl rfl rfl rfl
  constructor
  · rintro rfl hcf
    simp only [reorderMesh]
    rw [if_pos ⟨trivial, hcf⟩]
  · intro hcreate
    constructor
    · intro hUV
      simp only [reorderMesh]
      rw [if_neg (fun h => h.2 (hcreate h.1)), if_pos hUV]
    · intro hUVok
      constructor
      · intro hN
        simp only [reorderMesh]
        rw [if_neg (fun h => h.2 (hcreate h.1)), if_neg (by rw [hUVok]; simp), if_pos hN]
      · intro hNok hL
        simp only [reorderMesh]
        rw [if_neg (fun h => h.2 (hcreate h.1)), if_neg (by rw [hUVok]; simp),
          if_neg (by rw [hNok]; simp), if_pos hL]

/-- C4 (witness): a failing construction on the new-mesh-data path aborts
with that status and only the construction call issued; a failing
`clearUVs` makes `reorderMesh` return that failure right after the
construction call and the aborted UV block. -/
theorem reorderMesh_propagation_witness :
    (reorderMesh storeTwoPoints storeTwoPoints [0, 1]
        (fun c => match c with
          | MeshCall.createMesh _ _ _ _ _ => MStatus.kFailure
          | _ => MStatus.kSuccess) [] MStatus.kSuccess true
      = ((fun c => match c with
          | MeshCall.createMesh _ _ _ _ _ => MStatus.kFailure
          | _ => MStatus.kSuccess) (constructionCall storeTwoPoints storeTwoPoints [0, 1] true),
         [constructionCall storeTwoPoints storeTwoPoints [0, 1] true])) ∧
    (reorderMesh storeTwoPoints storeUV [0, 1]
        (fun c => match c with
          | MeshCall.clearUVs _ => MStatus.kFailure
          | _ => MStatus.kSuccess) [] MStatus.kSuccess false
      = ((setUVs
            (fun c => match c with
              | MeshCall.clearUVs _ => MStatus.kFailure
              | _ => MStatus.kSuccess)
            (getUVs storeUV.uvSetNames storeUV.uvOf storeUV.getUVsStatus
              storeUV.getAssignedUVsStatus).2).1,
         constructionCall storeTwoPoints storeUV [0, 1] false
           :: (setUVs
                (fun c => match c with
                  | MeshCall.clearUVs _ => MStatus.kFailure
                  | _ => MStatus.kSuccess)
                (getUVs storeUV.uvSetNames storeUV.uvOf storeUV.getUVsStatus
                  storeUV.getAssignedUVsStatus).2).2)) :=
  ⟨((reorderMesh_propagation storeTwoPoints storeTwoPoints [0, 1]
      (fun c => match c with
        | MeshCall.createMesh _ _ _ _ _ => MStatus.kFailure
        | _ => MStatus.kSuccess) [] MStatus.kSuccess true).2.2
      _ _ _ _ _ rfl rfl rfl rfl rfl).1 rfl (by decide),
   (((reorderMesh_propagation storeTwoPoints storeUV [0, 1]
      (fun c => match c with
        | MeshCall.clearUVs _ => MStatus.kFailure
        | _ => MStatus.kSuccess) [] MStatus.kSuccess false).2.2
      _ _ _ _ _ rfl rfl rfl rfl rfl).2 (by decide)).1 (by decide)⟩

/-! ### C5 -/

/-- C5 (counterexample): the point order `[0, 0]` on two vertices is not a
bijection (indices 0 and 1 map to the same slot), yet `reorderMesh`
reports success and performs its writes (the construction call carries the
collapsed point array: the second vertex's slot holds the default point,
point 1 having overwritten point 0 at slot 0) — no InvalidMapping
rejection occurs and writes are not prevented. -/
theorem reorderMesh_no_invalid_mapping_rejection :
    ([(0 : Int), 0].getD 0 0 = [(0 : Int), 0].getD 1 0) ∧
    (0 : Nat) ≠ 1 ∧
    (reorderMesh storeTwoPoints storeTwoPoints [0, 0] (fun _ => MStatus.kSuccess) []
        MStatus.kSuccess true).1 = MStatus.kSuccess ∧
    (reorderMesh storeTwoPoints storeTwoPoints [0, 0] (fun _ => MStatus.kSuccess) []
        MStatus.kSuccess true).2
      = [MeshCall.createMesh 2 0 [⟨1, 0, 0⟩, ⟨0, 0, 0⟩] [] [],
         MeshCall.setFaceVertexNormalsCall [] [] [],
         MeshCall.unlockFaceVertexNormalsCall [] []] := by
  decide

/-- C5 (amended): the code performs no validation of `pointOrder` and has
no InvalidMapping error: for every `pointOrder`, bijective or not,
`getPoints` reports success with a full-length output (out-of-range
targets are dropped by the bounds-checked write whose status the code
discards, and colliding targets overwrite), and `reorderMesh` always
proceeds to mesh construction and the output writes. -/
theorem reorderMesh_no_validation (targetPoints : List MPoint) (pointOrder : List Int)
    (src tgt : MeshStore) (ms : MeshCall → MStatus) (outEdges : List (Int × Int))
    (outGetVerticesStatus : MStatus) (isMeshData : Bool) :
    (getPoints targetPoints pointOrder).1 = MStatus.kSuccess ∧
    (getPoints targetPoints pointOrder).2.length = targetPoints.length ∧
    (reorderMesh src tgt pointOrder ms outEdges outGetVerticesStatus isMeshData).2.head?
      = some (constructionCall src tgt pointOrder isMeshData) :=
  ⟨rfl, getPoints_length targetPoints pointOrder,
   reorderMesh_head src tgt pointOrder ms outEdges outGetVerticesStatus isMeshData⟩

end polyReorder
